import Mathlib

/-!
Verification of the pdf-text-searcher normalization and indexing pipeline

Shallow embedding of `src/pdf-text-searcher.py`.  The program is a small
full-text search application: `normalize_text` normalizes raw text
(tokenize, lowercase, stem, lemmatize), `index_pdfs` stages every PDF of a
books directory into a writer session and commits, and `search_index`
normalizes a query with the same `normalize_text` and runs it against the
committed index.

The linguistic resources (NLTK `word_tokenize`, `PorterStemmer`,
`WordNetLemmatizer`) and the index engine (whoosh writer / searcher) are
external libraries whose code is not part of this repository; they are
modelled from the specification, with doc comments saying so.  The control
flow of `normalize_text`, `index_pdfs` and `search_index` is translated
directly from the source.
-/

namespace PdfTextSearcher

/-- Modelled from the spec: "Tokenize into maximal runs of word characters".
A word character is a letter or a digit (the NLTK tokenizer itself is an
external linguistic resource, absent from `src/`). -/
def isWordChar (c : Char) : Bool := c.isAlpha || c.isDigit

/-- Modelled from the spec: maximal-run tokenization over a character list.
`cur` is the current (possibly empty) run of word characters already read;
each maximal nonempty run becomes one token, every other character is a
separator. -/
def tokenizeAux : List Char → List Char → List String
  | [], cur => if cur = [] then [] else [String.mk cur]
  | c :: cs, cur =>
    if isWordChar c then tokenizeAux cs (cur ++ [c])
    else if cur = [] then tokenizeAux cs []
    else String.mk cur :: tokenizeAux cs []

/-- Modelled from the spec: "Tokenize into maximal runs of word characters". -/
def tokenizeChars (l : List Char) : List String := tokenizeAux l []

/-- Embedding of `word_tokenize(text)` as called at `normalize_text` line 40
(modelled from the spec as maximal word-character runs). -/
def word_tokenize (text : String) : List String := tokenizeChars text.data

/-- ASCII uppercase-to-lowercase pairs, used to model Python `str.lower()`. -/
def lower_table : List (Char × Char) :=
  [('A', 'a'), ('B', 'b'), ('C', 'c'), ('D', 'd'), ('E', 'e'), ('F', 'f'),
   ('G', 'g'), ('H', 'h'), ('I', 'i'), ('J', 'j'), ('K', 'k'), ('L', 'l'),
   ('M', 'm'), ('N', 'n'), ('O', 'o'), ('P', 'p'), ('Q', 'q'), ('R', 'r'),
   ('S', 's'), ('T', 't'), ('U', 'u'), ('V', 'v'), ('W', 'w'), ('X', 'x'),
   ('Y', 'y'), ('Z', 'z')]

/-- Lowercase one character: uppercase ASCII letters map to their lowercase
counterpart, every other character is unchanged. -/
def lowerChar (c : Char) : Char :=
  match lower_table.find? (fun p => p.1 == c) with
  | some p => p.2
  | none => c

/-- Embedding of Python `token.lower()` (`normalize_text` line 47),
character-wise ASCII lowercasing. -/
def lower (s : String) : String := String.mk (s.data.map lowerChar)

/-- Modelled from the spec: "Apply a stemming reduction (suffix-stripping to
a root form)" — the NLTK `PorterStemmer` is an external linguistic resource.
Suffix rules on the reversed character list, in order: `sses → ss`,
`ies → i`, a final `ss` is kept, a final `s` is dropped when at least two
characters remain. -/
def stemRev (l : List Char) : List Char :=
  if l.take 4 = ['s', 'e', 's', 's'] then 's' :: 's' :: l.drop 4
  else if l.take 3 = ['s', 'e', 'i'] then 'i' :: l.drop 3
  else if l.take 2 = ['s', 's'] then l
  else if l.take 1 = ['s'] ∧ 3 ≤ l.length then l.drop 1
  else l

/-- Embedding of `ps.stem(token)` (`normalize_text` line 49), via the
reversed-suffix rules of `stemRev`. -/
def stem (w : String) : String := String.mk (stemRev w.data.reverse).reverse

/-- Modelled from the spec: the lemmatizer's dictionary ("dictionary-based
reduction to a canonical word form") — the WordNet data is an external
linguistic resource.  A small fixed table of irregular forms. -/
def lemma_table : List (String × String) :=
  [("mice", "mouse"), ("feet", "foot"), ("ran", "run"), ("women", "woman")]

/-- Embedding of `lemmatizer.lemmatize(stemmed)` (`normalize_text` line 51):
dictionary lookup, and a token absent from the dictionary passes through
unchanged (the spec: "if a token cannot be processed ... it passes through
unchanged rather than raising"). -/
def lemmatize (w : String) : String :=
  match lemma_table.find? (fun p => p.1 == w) with
  | some p => p.2
  | none => w

/-- The per-token body of the loop of `normalize_text` (lines 45-52):
lowercase, then stem, then lemmatize the already-stemmed token. -/
def normalize_token (token : String) : String := lemmatize (stem (lower token))

/-- The list `normalized_tokens` built by the loop of `normalize_text`
(lines 44-52): one normalized token per input token, in input order. -/
def normalize_tokens (text : String) : List String :=
  (word_tokenize text).map normalize_token

/-- Embedding of Python `" ".join(normalized_tokens)`. -/
def join_with_spaces : List String → String
  | [] => ""
  | [w] => w
  | w :: ws => w ++ " " ++ join_with_spaces ws

/-- Embedding of `normalize_text(text)` (`src/pdf-text-searcher.py` lines
29-54): tokenize, then for each token lowercase, stem, lemmatize, and join
the processed tokens with single spaces. -/
def normalize_text (text : String) : String := join_with_spaces (normalize_tokens text)

example : word_tokenize "The quick brown fox" = ["The", "quick", "brown", "fox"] := by decide
example : normalize_text "The quick brown fox" = "the quick brown fox" := by decide
example : normalize_text "Glasses, ponies and MICE!" = "glass poni and mouse" := by decide
example : normalize_tokens "... ---" = [] := by decide

/-- Embedding of `normalized_text = normalize_text(extracted_text)` at
`index_pdfs` line 96: the normalization applied to document text at index
time. -/
def index_time_normalized (extracted_text : String) : String :=
  normalize_text extracted_text

/-- Embedding of `normalized_query = normalize_text(query_string)` at
`search_index` line 132: the normalization applied to the query at query
time. -/
def query_time_normalized (query_string : String) : String :=
  normalize_text query_string

/-- The terms produced at index time, one per raw token of the document
text (`index_pdfs` line 96 feeds `normalize_text`, whose loop builds
`normalize_tokens`). -/
def index_time_terms (extracted_text : String) : List String :=
  normalize_tokens extracted_text

/-- The terms produced at query time, one per raw token of the query string
(`search_index` line 132 feeds the same `normalize_text`). -/
def query_time_terms (query_string : String) : List String :=
  normalize_tokens query_string

/-- The (term, position) view of the normalizer's output stated by the
spec's contract `normalize(text) -> ordered sequence of (term, position)`:
each normalized token paired with its 0-based position in the tokenized
sequence. -/
def normalize_pairs (text : String) : List (String × Nat) :=
  (normalize_tokens text).enum.map (fun p => (p.2, p.1))

/-- C1: for every document text indexed and every query string searched,
the same normalization function is applied to both, so normalizing the same
raw text at index time and at query time produces the same normalized
string and the same term sequence: index-time and query-time vocabularies
coincide. -/
theorem index_and_query_use_same_normalizer (s : String) :
    index_time_normalized s = query_time_normalized s ∧
    index_time_terms s = query_time_terms s :=
  ⟨rfl, rfl⟩

/-- C5: normalization emits exactly one result per input token, keyed by
that token's 0-based position in the tokenized sequence: the i-th element
of the (term, position) sequence is exactly the normalization of the i-th
raw token paired with position i, and the sequence has one entry per
token. -/
theorem normalize_emits_one_pair_per_token (t : String) :
    (normalize_pairs t).length = (word_tokenize t).length ∧
    ∀ i : Nat,
      (normalize_pairs t)[i]? =
        ((word_tokenize t)[i]?).map (fun tok => (normalize_token tok, i)) := by
  constructor
  · simp [normalize_pairs, normalize_tokens]
  · intro i
    simp [normalize_pairs, normalize_tokens, List.enum, Option.map_map]
    rfl

/-- C6: for every token of every input text, the normalization stages are
applied in the fixed order tokenize, lowercase, stem, lemmatize, with the
lemmatization step applied to the already-stemmed token: the i-th
normalized term is `lemmatize (stem (lower tok_i))` where `tok_i` is the
i-th raw token. -/
theorem normalization_stage_order (t : String) (i : Nat) :
    (normalize_tokens t)[i]? =
      ((word_tokenize t)[i]?).map (fun tok => lemmatize (stem (lower tok))) := by
  simp only [normalize_tokens, List.getElem?_map]
  rfl

/-! Helper lemmas for normalization idempotence -/

theorem mk_data (s : String) : String.mk s.data = s := by
  cases s
  rfl

theorem tokenizeAux_append_run (run : List Char) :
    ∀ (cur rest : List Char), (∀ c ∈ run, isWordChar c) →
      tokenizeAux (run ++ rest) cur = tokenizeAux rest (cur ++ run) := by
  induction run with
  | nil => intro cur rest _; simp
  | cons r rs ih =>
    intro cur rest h
    have hr : isWordChar r := h r (by simp)
    simp only [List.cons_append, tokenizeAux, hr, if_true, List.append_eq]
    rw [ih (cur ++ [r]) rest (fun c hc => h c (by simp [hc]))]
    simp

theorem tokenizeAux_sound :
    ∀ (l cur : List Char), (∀ c ∈ cur, isWordChar c) →
      ∀ t ∈ tokenizeAux l cur, t.data ≠ [] ∧ ∀ c ∈ t.data, isWordChar c := by
  intro l
  induction l with
  | nil =>
    intro cur hcur t ht
    by_cases hc : cur = []
    · simp [tokenizeAux, hc] at ht
    · simp only [tokenizeAux, if_neg hc, List.mem_singleton] at ht
      subst ht
      exact ⟨hc, hcur⟩
  | cons c cs ih =>
    intro cur hcur t ht
    by_cases hw : isWordChar c
    · simp only [tokenizeAux, hw, if_true] at ht
      refine ih (cur ++ [c]) ?_ t ht
      intro d hd
      rcases List.mem_append.1 hd with h1 | h1
      · exact hcur d h1
      · simp only [List.mem_singleton] at h1
        subst h1
        exact hw
    · simp only [tokenizeAux, hw, Bool.false_eq_true, if_false] at ht
      by_cases hc : cur = []
      · rw [if_pos hc] at ht
        exact ih [] (by simp) t ht
      · rw [if_neg hc] at ht
        rcases List.mem_cons.1 ht with rfl | ht'
        · exact ⟨hc, hcur⟩
        · exact ih [] (by simp) t ht'

theorem word_tokenize_sound (t : String) :
    ∀ w ∈ word_tokenize t, w.data ≠ [] ∧ ∀ c ∈ w.data, isWordChar c :=
  tokenizeAux_sound t.data [] (by simp)

theorem lowerChar_wordChar (c : Char) : isWordChar (lowerChar c) = isWordChar c := by
  unfold lowerChar
  cases h : lower_table.find? (fun p => p.1 == c) with
  | none => rfl
  | some p =>
    have hp : p ∈ lower_table := List.mem_of_find?_eq_some h
    have hpc : p.1 = c := by
      have := List.find?_some h
      simpa using this
    have hall : ∀ q ∈ lower_table, isWordChar q.2 = true ∧ isWordChar q.1 = true := by decide
    rcases hall p hp with ⟨h2, h1⟩
    rw [h2, ← hpc, h1]

theorem lowerChar_fix (c : Char) : lowerChar (lowerChar c) = lowerChar c := by
  cases h : lower_table.find? (fun p => p.1 == c) with
  | none =>
    have hc : lowerChar c = c := by unfold lowerChar; rw [h]
    rw [hc]
    exact hc
  | some p =>
    have hc : lowerChar c = p.2 := by unfold lowerChar; rw [h]
    have hp : p ∈ lower_table := List.mem_of_find?_eq_some h
    have hnone : lower_table.find? (fun q => q.1 == p.2) = none := by
      rw [List.find?_eq_none]
      intro q hq
      have hf : ∀ r ∈ lower_table, ∀ q ∈ lower_table, (q.1 == r.2) = false := by decide
      simp [hf p hp q hq]
    have h2 : lowerChar p.2 = p.2 := by unfold lowerChar; rw [hnone]
    rw [hc, h2]

theorem data_lower (s : String) : (lower s).data = s.data.map lowerChar := rfl

theorem lower_fix_of_mem (s : String) (h : ∀ c ∈ s.data, lowerChar c = c) :
    lower s = s := by
  unfold lower
  rw [List.map_congr_left h, List.map_id', mk_data]

theorem take_one_of_take_eq {l v : List Char} {n : Nat} (hn : 1 ≤ n)
    (h : l.take n = v) : l.take 1 = v.take 1 := by
  rw [← h, List.take_take]
  congr 1
  omega

theorem stemRev_sub (l : List Char) : ∀ c ∈ stemRev l, c ∈ l := by
  intro c hc
  unfold stemRev at hc
  split_ifs at hc with h1 h2 h3 h4
  · rcases List.mem_cons.1 hc with rfl | hc'
    · exact List.take_subset 4 l (by rw [h1]; simp)
    · rcases List.mem_cons.1 hc' with rfl | hc''
      · exact List.take_subset 4 l (by rw [h1]; simp)
      · exact List.drop_subset 4 l hc''
  · rcases List.mem_cons.1 hc with rfl | hc'
    · exact List.take_subset 3 l (by rw [h2]; simp)
    · exact List.drop_subset 3 l hc'
  · exact hc
  · exact List.drop_subset 1 l hc
  · exact hc

theorem stemRev_ne_nil (l : List Char) (h : l ≠ []) : stemRev l ≠ [] := by
  unfold stemRev
  split_ifs with h1 h2 h3 h4
  · simp
  · simp
  · exact h
  · have hlen : (l.drop 1).length = l.length - 1 := by simp
    have h3le := h4.2
    intro hd
    rw [hd] at hlen
    simp at hlen
    omega
  · exact h

theorem stemRev_stemRev (l : List Char) : stemRev (stemRev l) = stemRev l := by
  by_cases h1 : l.take 4 = ['s', 'e', 's', 's']
  · have e1 : stemRev l = 's' :: 's' :: l.drop 4 := by
      unfold stemRev; rw [if_pos h1]
    rw [e1]
    unfold stemRev
    simp
  · by_cases h2 : l.take 3 = ['s', 'e', 'i']
    · have e2 : stemRev l = 'i' :: l.drop 3 := by
        unfold stemRev; rw [if_neg h1, if_pos h2]
      rw [e2]
      unfold stemRev
      simp
    · by_cases h3 : l.take 2 = ['s', 's']
      · have e3 : stemRev l = l := by
          unfold stemRev; rw [if_neg h1, if_neg h2, if_pos h3]
        rw [e3, e3]
      · by_cases h4 : l.take 1 = ['s'] ∧ 3 ≤ l.length
        · have e4 : stemRev l = l.drop 1 := by
            unfold stemRev; rw [if_neg h1, if_neg h2, if_neg h3, if_pos h4]
          rw [e4]
          have hxs : (l.drop 1).take 1 ≠ ['s'] := by
            intro hcon
            apply h3
            have : l.take (1 + 1) = l.take 1 ++ (l.drop 1).take 1 := List.take_add l 1 1
            rw [h4.1, hcon] at this
            simpa using this
          unfold stemRev
          rw [if_neg (fun hcon => hxs (by simpa using take_one_of_take_eq (by omega) hcon)),
            if_neg (fun hcon => hxs (by simpa using take_one_of_take_eq (by omega) hcon)),
            if_neg (fun hcon => hxs (by simpa using take_one_of_take_eq (by omega) hcon)),
            if_neg (fun hcon => hxs hcon.1)]
        · have e5 : stemRev l = l := by
            unfold stemRev; rw [if_neg h1, if_neg h2, if_neg h3, if_neg h4]
          rw [e5, e5]

theorem stem_data_sub (w : String) : ∀ c ∈ (stem w).data, c ∈ w.data := by
  intro c hc
  have h1 : c ∈ stemRev w.data.reverse := by
    have : (stem w).data = (stemRev w.data.reverse).reverse := rfl
    rw [this, List.mem_reverse] at hc
    exact hc
  have h2 := stemRev_sub _ _ h1
  rw [List.mem_reverse] at h2
  exact h2

theorem stem_data_ne_nil (w : String) (h : w.data ≠ []) : (stem w).data ≠ [] := by
  have h1 : w.data.reverse ≠ [] := by simpa
  have h2 := stemRev_ne_nil _ h1
  have h3 : (stem w).data = (stemRev w.data.reverse).reverse := rfl
  rw [h3]
  simpa

theorem stem_stem (w : String) : stem (stem w) = stem w := by
  unfold stem
  have h1 : (String.mk (stemRev w.data.reverse).reverse).data
      = (stemRev w.data.reverse).reverse := rfl
  rw [h1, List.reverse_reverse, stemRev_stemRev]

theorem lemmatize_of_find?_none (w : String)
    (h : lemma_table.find? (fun p => p.1 == w) = none) : lemmatize w = w := by
  unfold lemmatize
  rw [h]

theorem lemmatize_of_find?_some (w : String) (p : String × String)
    (h : lemma_table.find? (fun q => q.1 == w) = some p) : lemmatize w = p.2 := by
  unfold lemmatize
  rw [h]

theorem lemma_table_values_stable :
    ∀ p ∈ lemma_table, lower p.2 = p.2 ∧ stem p.2 = p.2 ∧
      lemma_table.find? (fun q => q.1 == p.2) = none := by decide

theorem lemma_table_values_shape :
    ∀ p ∈ lemma_table, p.2.data ≠ [] ∧ ∀ c ∈ p.2.data, isWordChar c := by decide

theorem lower_stem_lower (w : String) : lower (stem (lower w)) = stem (lower w) := by
  apply lower_fix_of_mem
  intro c hc
  have hc' := stem_data_sub (lower w) c hc
  rw [data_lower] at hc'
  rcases List.mem_map.1 hc' with ⟨d, _, rfl⟩
  exact lowerChar_fix d

theorem normalize_token_idem (w : String) :
    normalize_token (normalize_token w) = normalize_token w := by
  cases h : lemma_table.find? (fun p => p.1 == stem (lower w)) with
  | some p =>
    have hp : p ∈ lemma_table := List.mem_of_find?_eq_some h
    rcases lemma_table_values_stable p hp with ⟨hl, hs, hn⟩
    have e1 : normalize_token w = p.2 := by
      unfold normalize_token
      exact lemmatize_of_find?_some _ p h
    rw [e1]
    unfold normalize_token
    rw [hl, hs]
    exact lemmatize_of_find?_none _ hn
  | none =>
    have e1 : normalize_token w = stem (lower w) := by
      unfold normalize_token
      exact lemmatize_of_find?_none _ h
    rw [e1]
    unfold normalize_token
    rw [lower_stem_lower, stem_stem]
    exact lemmatize_of_find?_none _ h

theorem normalize_token_sound (w : String) (hne : w.data ≠ [])
    (hw : ∀ c ∈ w.data, isWordChar c) :
    (normalize_token w).data ≠ [] ∧ ∀ c ∈ (normalize_token w).data, isWordChar c := by
  cases h : lemma_table.find? (fun p => p.1 == stem (lower w)) with
  | some p =>
    have hp : p ∈ lemma_table := List.mem_of_find?_eq_some h
    have e1 : normalize_token w = p.2 := by
      unfold normalize_token
      exact lemmatize_of_find?_some _ p h
    rw [e1]
    exact lemma_table_values_shape p hp
  | none =>
    have e1 : normalize_token w = stem (lower w) := by
      unfold normalize_token
      exact lemmatize_of_find?_none _ h
    rw [e1]
    constructor
    · apply stem_data_ne_nil
      rw [data_lower]
      simpa using hne
    · intro c hc
      have hc' := stem_data_sub (lower w) c hc
      rw [data_lower] at hc'
      rcases List.mem_map.1 hc' with ⟨d, hd, rfl⟩
      rw [lowerChar_wordChar]
      exact hw d hd

theorem tokenizeChars_join :
    ∀ (l : List String), (∀ w ∈ l, w.data ≠ [] ∧ ∀ c ∈ w.data, isWordChar c) →
      tokenizeChars (join_with_spaces l).data = l
  | [], _ => rfl
  | [w], h => by
    rcases h w (by simp) with ⟨hne, hw⟩
    show tokenizeAux w.data [] = [w]
    have e : tokenizeAux (w.data ++ []) [] = tokenizeAux [] ([] ++ w.data) :=
      tokenizeAux_append_run w.data [] [] hw
    simp only [List.append_nil, List.nil_append] at e
    rw [e]
    simp only [tokenizeAux, if_neg hne]
  | w :: v :: vs, h => by
    rcases h w (by simp) with ⟨hne, hw⟩
    have ih := tokenizeChars_join (v :: vs) (fun u hu => h u (by simp [hu]))
    show tokenizeAux (w ++ " " ++ join_with_spaces (v :: vs)).data [] = w :: v :: vs
    have hdata : (w ++ " " ++ join_with_spaces (v :: vs)).data
        = w.data ++ (' ' :: (join_with_spaces (v :: vs)).data) := by
      rw [String.data_append, String.data_append]
      simp
    rw [hdata]
    rw [tokenizeAux_append_run w.data [] (' ' :: (join_with_spaces (v :: vs)).data) hw]
    simp only [List.nil_append]
    have hsp : isWordChar ' ' = false := by decide
    simp only [tokenizeAux, hsp, Bool.false_eq_true, if_false, if_neg hne]
    rw [mk_data]
    exact congrArg (w :: ·) ih

/-- C9: normalization is a fixed point under re-normalization: for every
input text `t`, re-normalizing the text form of the normalized output
(`normalize_text t`, the space-joined normalized tokens) yields the same
term sequence again. -/
theorem normalize_reaches_fixed_point (t : String) :
    normalize_tokens (normalize_text t) = normalize_tokens t := by
  have hshape : ∀ w ∈ normalize_tokens t, w.data ≠ [] ∧ ∀ c ∈ w.data, isWordChar c := by
    intro w hw
    rcases List.mem_map.1 hw with ⟨tok, htok, rfl⟩
    rcases word_tokenize_sound t tok htok with ⟨hne, hwc⟩
    exact normalize_token_sound tok hne hwc
  have h1 : word_tokenize (normalize_text t) = normalize_tokens t :=
    tokenizeChars_join (normalize_tokens t) hshape
  show (word_tokenize (normalize_text t)).map normalize_token = normalize_tokens t
  rw [h1]
  show ((word_tokenize t).map normalize_token).map normalize_token = normalize_tokens t
  rw [List.map_map]
  exact List.map_congr_left (fun tok _ => normalize_token_idem tok)

/-! The index: documents, upsert, commit (whoosh modelled from the spec) -/

/-- A stored document of the index: the three stored fields of the whoosh
schema (lines 23-27): `path` (the unique `ID` key), `filename`, and the
normalized `content`. -/
structure Doc where
  path : String
  filename : String
  content : String
deriving DecidableEq

/-- Modelled from the spec: `writer.update_document` stages "an upsert
keyed by `id` (replacing any prior staged or committed version of that
id)" — every existing document whose unique `path` equals the new one is
removed and the new document is appended. -/
def upsert (docs : List Doc) (d : Doc) : List Doc :=
  (docs.filter (fun e => !(e.path == d.path))) ++ [d]

/-- Modelled from the spec: the commit merge — the new snapshot is "prior
snapshot's documents not touched by this session, minus any ids upserted,
plus the newly staged documents", folding the staged upserts in order. -/
def mergeDocs (prior : List Doc) : List Doc → List Doc
  | [] => prior
  | d :: ds => mergeDocs (upsert prior d) ds

/-- Modelled from the spec: `writer.commit()` (line 110) is all-or-nothing.
`failAt = some k` with `k < staged.length` injects an irrecoverable failure
while merging the k-th staged document; the session is then cancelled
(`writer.cancel()`, line 114) and the prior snapshot stays published.
Otherwise the fully merged snapshot is atomically published.  Returns the
visible snapshot and whether the commit succeeded. -/
def commitSession (prior staged : List Doc) (failAt : Option Nat) :
    List Doc × Bool :=
  match failAt with
  | some k =>
    if k < staged.length then (prior, false) else (mergeDocs prior staged, true)
  | none => (mergeDocs prior staged, true)

/-! Query parsing and searching (whoosh modelled from the spec) -/

/-- The query tree of the spec (§4.3): leaves are normalized terms, implicit
adjacency is a conjunction, and a query with zero terms is the null query. -/
inductive QueryTree where
  | nullq : QueryTree
  | termq : String → QueryTree
  | andq : QueryTree → QueryTree → QueryTree
deriving DecidableEq

/-- Modelled from the spec: `parser.parse(normalized_query)` at
`search_index` line 135 — bare terms, implicit adjacency of terms becomes a
conjunction, and a query that normalizes to zero terms yields the null
query rather than an error ("that is a valid no-results query, not a
syntax error"). -/
def parseQuery (normalized : String) : QueryTree :=
  match word_tokenize normalized with
  | [] => QueryTree.nullq
  | t :: ts =>
    ts.foldl (fun q u => QueryTree.andq q (QueryTree.termq u)) (QueryTree.termq t)

/-- Modelled from the spec: whether a document matches a query tree — a
term leaf matches when the term occurs in the document's (already
normalized) content, a conjunction requires both children, and the null
query matches nothing. -/
def docMatches (d : Doc) : QueryTree → Bool
  | QueryTree.nullq => false
  | QueryTree.termq t => (word_tokenize d.content).contains t
  | QueryTree.andq l r => docMatches d l && docMatches d r

/-- Modelled from the spec: `searcher.search(query, limit=50)` at line 137 —
the matching documents of the snapshot in snapshot order, truncated to the
limit of 50. -/
def searchSnapshot (snap : List Doc) (q : QueryTree) : List Doc :=
  (snap.filter (fun d => docMatches d q)).take 50

/-- The persisted index directory as the search path sees it: never
created, created but holding no committed index, or holding a committed
snapshot. -/
inductive IndexDir where
  | absent : IndexDir
  | emptyDir : IndexDir
  | committed : List Doc → IndexDir
deriving DecidableEq

/-- Modelled from the spec: `open_dir(index_dir)` at `search_index` line
123 — opening an index directory that has never been created, or holds no
committed index, raises `EmptyIndexError` (the spec's
`IndexUnavailableError`); otherwise it yields the last committed
snapshot. -/
def open_dir : IndexDir → Except Unit (List Doc)
  | IndexDir.absent => Except.error ()
  | IndexDir.emptyDir => Except.error ()
  | IndexDir.committed snap => Except.ok snap

/-- What `search_index` reports back through its two callbacks: the error
status message (if any) and the result list handed to
`results_callback`. -/
structure SearchReport where
  errorStatus : Option String
  results : List Doc
deriving DecidableEq

/-- Embedding of `search_index` (lines 116-155): open the index — an
`EmptyIndexError` is caught and reported as a status error together with an
empty result list (lines 124-127) — then normalize the query with the same
`normalize_text` used for indexing, parse it, and search with limit 50. -/
def search_index (dir : IndexDir) (query_string : String) : SearchReport :=
  match open_dir dir with
  | Except.error _ =>
    { errorStatus := some "Error: Index is empty or not found. Please index files first."
      results := [] }
  | Except.ok snap =>
    let normalized_query := normalize_text query_string
    let query := parseQuery normalized_query
    { errorStatus := none, results := searchSnapshot snap query }

/-! The indexing session (`index_pdfs`) -/

/-- The outcome of the external PDF text extraction for one file: either
the accumulated page text (the `extracted_text` built by lines 89-93,
possibly empty), or an exception raised while reading the file (the
`except` branch, lines 106-108). -/
inductive Extraction where
  | ok : String → Extraction
  | exn : Extraction
deriving DecidableEq

/-- Whether a file's extraction outcome leads to `update_document`: the
Python truthiness test `if extracted_text:` at line 94. -/
def indexable : Extraction → Bool
  | Extraction.ok t => !(t == "")
  | Extraction.exn => false

/-- The mutable state of the `index_pdfs` loop: the two counters (lines
77-78), the documents staged in the writer session, and the status
messages reported through `status_callback`. -/
structure IndexRun where
  indexedFiles : Nat
  errorFiles : Nat
  staged : List Doc
  statuses : List String
deriving DecidableEq

/-- One iteration of the `for` loop of `index_pdfs` (lines 84-108): text
was extracted (or an exception occurred); nonempty text is normalized and
staged via `update_document` and counts in `indexed_files`; empty text is
reported as a warning and counted in `error_files`; an extraction
exception is reported as an error and counted in `error_files`. -/
def processFile (books_dir : String) (run : IndexRun) (filename : String)
    (ext : Extraction) : IndexRun :=
  let full_path := books_dir ++ "/" ++ filename
  match ext with
  | Extraction.ok extracted_text =>
    if extracted_text = "" then
      { run with
        errorFiles := run.errorFiles + 1
        statuses := run.statuses ++ ["Warning: No text extracted from " ++ filename] }
    else
      { run with
        indexedFiles := run.indexedFiles + 1
        staged := upsert run.staged
          { path := full_path
            filename := filename
            content := normalize_text extracted_text } }
  | Extraction.exn =>
    { run with
      errorFiles := run.errorFiles + 1
      statuses := run.statuses ++ ["Error indexing " ++ filename] }

/-- Suffix test on the character lists, modelling Python
`str.endswith`. -/
def strEndsWith (s suf : String) : Bool :=
  s.data.reverse.take suf.data.length == suf.data.reverse

/-- Embedding of the listing filter at line 81:
`f.lower().endswith(".pdf")`. -/
def isPdfName (f : String) : Bool := strEndsWith (lower f) ".pdf"

/-- What an indexing session produces: the final loop state, the snapshot
visible after the commit attempt, and the summary counts of the final
status line (line 111) — `none` when the commit failed and the fatal
handler ran instead (lines 112-114). -/
structure IndexOutcome where
  run : IndexRun
  visible : List Doc
  summary : Option (Nat × Nat)
deriving DecidableEq

/-- Embedding of `index_pdfs` (lines 66-114) over the books-directory
listing and one extraction outcome per file (the PDF reading itself is an
external collaborator).  The `.pdf` filter mirrors line 81, the loop folds
`processFile` over the files, and the commit attempt follows (line 110),
with `cancel()` semantics on failure (line 114). -/
def index_pdfs (books_dir : String) (listing : List String)
    (extract : String → Extraction) (prior : List Doc)
    (commitFailAt : Option Nat) : IndexOutcome :=
  let all_files := listing.filter isPdfName
  let run := all_files.foldl
    (fun r f => processFile books_dir r f (extract f))
    { indexedFiles := 0, errorFiles := 0, staged := [], statuses := [] }
  let committed := commitSession prior run.staged commitFailAt
  { run := run
    visible := committed.1
    summary := if committed.2 then some (run.indexedFiles, run.errorFiles) else none }

/-! Claims about commit, upsert and search -/

/-- C3: for every query, searching an index directory that has never been
created reports the distinct index-unavailable error (whoosh
`EmptyIndexError`, caught at lines 124-127) together with an empty result
list handed to `results_callback` — the embedded `search_index` is a total
function, so no crash or uncaught exception occurs on this path. -/
theorem search_absent_index_unavailable (q : String) :
    search_index IndexDir.absent q =
      { errorStatus := some "Error: Index is empty or not found. Please index files first."
        results := [] } := rfl

/-- C2: commit is all-or-nothing.  If the commit fails (an irrecoverable
failure is injected at any staged document), the visible snapshot is the
prior snapshot unchanged; if it succeeds, the visible snapshot is the fully
merged one; and a subsequent search sees either the pre-commit snapshot in
full or the post-commit snapshot in full, never a mixture. -/
theorem commit_all_or_nothing (prior staged : List Doc) (failAt : Option Nat)
    (q : QueryTree) :
    ((commitSession prior staged failAt).2 = false →
      (commitSession prior staged failAt).1 = prior) ∧
    ((commitSession prior staged failAt).2 = true →
      (commitSession prior staged failAt).1 = mergeDocs prior staged) ∧
    (searchSnapshot (commitSession prior staged failAt).1 q =
        searchSnapshot prior q ∨
      searchSnapshot (commitSession prior staged failAt).1 q =
        searchSnapshot (mergeDocs prior staged) q) := by
  cases failAt with
  | none =>
    have e : commitSession prior staged none = (mergeDocs prior staged, true) := rfl
    rw [e]
    exact ⟨by simp, fun _ => rfl, Or.inr rfl⟩
  | some k =>
    by_cases hk : k < staged.length
    · have e : commitSession prior staged (some k) = (prior, false) := by
        show (if k < staged.length then (prior, false)
          else (mergeDocs prior staged, true)) = (prior, false)
        rw [if_pos hk]
      rw [e]
      exact ⟨fun _ => rfl, by simp, Or.inl rfl⟩
    · have e : commitSession prior staged (some k) = (mergeDocs prior staged, true) := by
        show (if k < staged.length then (prior, false)
          else (mergeDocs prior staged, true)) = (mergeDocs prior staged, true)
        rw [if_neg hk]
      rw [e]
      exact ⟨by simp, fun _ => rfl, Or.inr rfl⟩

theorem commit_all_or_nothing_witness :
    ((commitSession [⟨"D:/books/a.pdf", "a.pdf", "quick fox"⟩]
        [⟨"D:/books/b.pdf", "b.pdf", "brown fox"⟩] (some 0)).2 = false →
      (commitSession [⟨"D:/books/a.pdf", "a.pdf", "quick fox"⟩]
        [⟨"D:/books/b.pdf", "b.pdf", "brown fox"⟩] (some 0)).1 =
        [⟨"D:/books/a.pdf", "a.pdf", "quick fox"⟩]) ∧
    ((commitSession [⟨"D:/books/a.pdf", "a.pdf", "quick fox"⟩]
        [⟨"D:/books/b.pdf", "b.pdf", "brown fox"⟩] (some 0)).2 = true →
      (commitSession [⟨"D:/books/a.pdf", "a.pdf", "quick fox"⟩]
        [⟨"D:/books/b.pdf", "b.pdf", "brown fox"⟩] (some 0)).1 =
        mergeDocs [⟨"D:/books/a.pdf", "a.pdf", "quick fox"⟩]
          [⟨"D:/books/b.pdf", "b.pdf", "brown fox"⟩]) ∧
    (searchSnapshot (commitSession [⟨"D:/books/a.pdf", "a.pdf", "quick fox"⟩]
        [⟨"D:/books/b.pdf", "b.pdf", "brown fox"⟩] (some 0)).1
        (QueryTree.termq "fox") =
        searchSnapshot [⟨"D:/books/a.pdf", "a.pdf", "quick fox"⟩]
          (QueryTree.termq "fox") ∨
      searchSnapshot (commitSession [⟨"D:/books/a.pdf", "a.pdf", "quick fox"⟩]
        [⟨"D:/books/b.pdf", "b.pdf", "brown fox"⟩] (some 0)).1
        (QueryTree.termq "fox") =
        searchSnapshot (mergeDocs [⟨"D:/books/a.pdf", "a.pdf", "quick fox"⟩]
          [⟨"D:/books/b.pdf", "b.pdf", "brown fox"⟩]) (QueryTree.termq "fox")) :=
  commit_all_or_nothing _ _ _ _

theorem filter_upsert (docs : List Doc) (d : Doc) :
    (upsert docs d).filter (fun e => e.path == d.path) = [d] := by
  unfold upsert
  rw [List.filter_append]
  have h1 : (docs.filter (fun e => !(e.path == d.path))).filter
      (fun e => e.path == d.path) = [] := by
    rw [List.filter_filter]
    rw [List.filter_eq_nil_iff]
    intro a _
    cases h : a.path == d.path <;> simp [h]
  rw [h1]
  simp [List.filter]

/-- C4: indexing the same document id (unique `path` key) twice with
different content results in exactly one entry for that id in the
committed index, holding only the latest content — both when the two
upserts are staged in a single writer session and when they are committed
in two successive sessions. -/
theorem upsert_same_id_single_entry (prior : List Doc) (d1 d2 : Doc)
    (h : d1.path = d2.path) :
    ((commitSession prior [d1, d2] none).1.filter
        (fun e => e.path == d2.path) = [d2]) ∧
    ((commitSession (commitSession prior [d1] none).1 [d2] none).1.filter
        (fun e => e.path == d2.path) = [d2]) :=
  ⟨filter_upsert _ d2, filter_upsert _ d2⟩

theorem upsert_same_id_single_entry_witness :
    (Doc.path ⟨"D:/books/a.pdf", "a.pdf", "old content"⟩ =
        Doc.path ⟨"D:/books/a.pdf", "a.pdf", "new content"⟩) ∧
    (((commitSession [] [⟨"D:/books/a.pdf", "a.pdf", "old content"⟩,
          ⟨"D:/books/a.pdf", "a.pdf", "new content"⟩] none).1.filter
        (fun e => e.path == Doc.path ⟨"D:/books/a.pdf", "a.pdf", "new content"⟩) =
        [⟨"D:/books/a.pdf", "a.pdf", "new content"⟩]) ∧
      ((commitSession (commitSession []
            [⟨"D:/books/a.pdf", "a.pdf", "old content"⟩] none).1
          [⟨"D:/books/a.pdf", "a.pdf", "new content"⟩] none).1.filter
        (fun e => e.path == Doc.path ⟨"D:/books/a.pdf", "a.pdf", "new content"⟩) =
        [⟨"D:/books/a.pdf", "a.pdf", "new content"⟩])) :=
  ⟨rfl, upsert_same_id_single_entry [] _ _ rfl⟩

/-- C8: a query string that normalizes to zero terms does not make the
search pipeline throw: against any committed snapshot it returns an empty
result set with no error status (the parser yields the null query, which
matches no document). -/
theorem empty_query_empty_results (snap : List Doc) (q : String)
    (h : normalize_tokens q = []) :
    search_index (IndexDir.committed snap) q =
      { errorStatus := none, results := [] } := by
  have h1 : normalize_text q = "" := by
    unfold normalize_text
    rw [h]
    rfl
  show ({ errorStatus := none
          results := searchSnapshot snap (parseQuery (normalize_text q)) } : SearchReport) = _
  rw [h1]
  show ({ errorStatus := none
          results := searchSnapshot snap QueryTree.nullq } : SearchReport) = _
  unfold searchSnapshot
  simp [docMatches]

theorem empty_query_empty_results_witness :
    (normalize_tokens "..." = []) ∧
    (search_index (IndexDir.committed [⟨"D:/books/a.pdf", "a.pdf", "quick fox"⟩]) "..." =
      { errorStatus := none, results := [] }) :=
  ⟨by decide, empty_query_empty_results _ _ (by decide)⟩

/-! Claims about the indexing session counters -/

theorem processFile_counts (b : String) (r : IndexRun) (f : String) (x : Extraction) :
    (processFile b r f x).indexedFiles + (processFile b r f x).errorFiles
      = r.indexedFiles + r.errorFiles + 1 := by
  cases x with
  | ok t => by_cases ht : t = "" <;> simp [processFile, ht] <;> omega
  | exn => simp [processFile]; omega

theorem foldl_counts (b : String) (extract : String → Extraction) :
    ∀ (fs : List String) (r : IndexRun),
      ((fs.foldl (fun r f => processFile b r f (extract f)) r).indexedFiles +
        (fs.foldl (fun r f => processFile b r f (extract f)) r).errorFiles)
        = r.indexedFiles + r.errorFiles + fs.length := by
  intro fs
  induction fs with
  | nil => intro r; simp
  | cons f fs ih =>
    intro r
    simp only [List.foldl_cons, List.length_cons]
    rw [ih (processFile b r f (extract f)), processFile_counts]
    omega

/-- C10: for every indexing run that completes without a fatal error (the
summary status line of `index_pdfs` line 111 is emitted), every `.pdf` file
of the books directory contributes to exactly one of the two session
counters: the reported indexed count plus the reported errors/skipped count
equals the total number of PDF files found. -/
theorem counters_partition_pdf_files (books_dir : String) (listing : List String)
    (extract : String → Extraction) (prior : List Doc) (failAt : Option Nat)
    (i e : Nat)
    (h : (index_pdfs books_dir listing extract prior failAt).summary = some (i, e)) :
    i + e = (listing.filter isPdfName).length := by
  simp only [index_pdfs] at h
  split at h
  · simp only [Option.some.injEq, Prod.mk.injEq] at h
    obtain ⟨hi, he⟩ := h
    rw [← hi, ← he]
    simpa using foldl_counts books_dir extract (listing.filter isPdfName) ⟨0, 0, [], []⟩
  · exact absurd h (by simp)

theorem counters_partition_pdf_files_witness :
    ((index_pdfs "D:/books" ["a.pdf", "b.pdf", "x.txt"]
        (fun f => if f = "b.pdf" then Extraction.exn
          else Extraction.ok "The quick brown fox") [] none).summary =
      some (1, 1)) ∧
    (1 + 1 = ((["a.pdf", "b.pdf", "x.txt"] : List String).filter isPdfName).length) :=
  ⟨by decide, counters_partition_pdf_files "D:/books" ["a.pdf", "b.pdf", "x.txt"]
    (fun f => if f = "b.pdf" then Extraction.exn
      else Extraction.ok "The quick brown fox") [] none 1 1 (by decide)⟩

/-! Claims about skipped empty documents -/

theorem mem_upsert (X : List Doc) (e d : Doc) (h : d ∈ upsert X e) :
    d ∈ X ∨ d = e := by
  unfold upsert at h
  rcases List.mem_append.1 h with h1 | h1
  · exact Or.inl (List.mem_filter.1 h1).1
  · simp only [List.mem_singleton] at h1
    exact Or.inr h1

theorem mem_mergeDocs : ∀ (staged prior : List Doc) (d : Doc),
    d ∈ mergeDocs prior staged → d ∈ prior ∨ d ∈ staged := by
  intro staged
  induction staged with
  | nil => intro prior d h; exact Or.inl h
  | cons e es ih =>
    intro prior d h
    rcases ih (upsert prior e) d h with h1 | h1
    · rcases mem_upsert prior e d h1 with h2 | h2
      · exact Or.inl h2
      · exact Or.inr (by simp [h2])
    · exact Or.inr (by simp [h1])

theorem foldl_indexed (b : String) (extract : String → Extraction) :
    ∀ (fs : List String) (r : IndexRun),
      (fs.foldl (fun r f => processFile b r f (extract f)) r).indexedFiles
        = r.indexedFiles + (fs.filter (fun g => indexable (extract g))).length := by
  intro fs
  induction fs with
  | nil => intro r; simp
  | cons f fs ih =>
    intro r
    simp only [List.foldl_cons, List.filter_cons]
    rw [ih]
    cases hx : extract f with
    | ok t =>
      by_cases ht : t = ""
      · simp [processFile, ht, indexable, hx]
      · simp [processFile, ht, indexable, hx]
        omega
    | exn => simp [processFile, indexable, hx]

theorem foldl_errors (b : String) (extract : String → Extraction) :
    ∀ (fs : List String) (r : IndexRun),
      (fs.foldl (fun r f => processFile b r f (extract f)) r).errorFiles
        = r.errorFiles + (fs.filter (fun g => !(indexable (extract g)))).length := by
  intro fs
  induction fs with
  | nil => intro r; simp
  | cons f fs ih =>
    intro r
    simp only [List.foldl_cons, List.filter_cons]
    rw [ih]
    cases hx : extract f with
    | ok t =>
      by_cases ht : t = ""
      · simp [processFile, ht, indexable, hx]
        omega
      · simp [processFile, ht, indexable, hx]
    | exn =>
      simp [processFile, indexable, hx]
      omega

theorem foldl_staged (b : String) (extract : String → Extraction) :
    ∀ (fs : List String) (r : IndexRun) (d : Doc),
      d ∈ (fs.foldl (fun r f => processFile b r f (extract f)) r).staged →
      d ∈ r.staged ∨ ∃ f, f ∈ fs ∧ indexable (extract f) = true ∧ d.filename = f := by
  intro fs
  induction fs with
  | nil => intro r d h; exact Or.inl h
  | cons f fs ih =>
    intro r d h
    simp only [List.foldl_cons] at h
    rcases ih (processFile b r f (extract f)) d h with h1 | h1
    · cases hx : extract f with
      | ok t =>
        by_cases ht : t = ""
        · rw [hx] at h1
          simp [processFile, ht] at h1
          exact Or.inl h1
        · rw [hx] at h1
          simp only [processFile] at h1
          rw [if_neg ht] at h1
          rcases mem_upsert _ _ _ h1 with h2 | h2
          · exact Or.inl h2
          · refine Or.inr ⟨f, by simp, ?_, ?_⟩
            · rw [hx]
              simp [indexable, ht]
            · rw [h2]
      | exn =>
        rw [hx] at h1
        simp [processFile] at h1
        exact Or.inl h1
    · rcases h1 with ⟨g, hg, hind, hname⟩
      exact Or.inr ⟨g, by simp [hg], hind, hname⟩

theorem staged_filename_indexable (b : String) (extract : String → Extraction)
    (fs : List String) (d : Doc)
    (hd : d ∈ (fs.foldl (fun r f => processFile b r f (extract f))
      ⟨0, 0, [], []⟩).staged) :
    ∃ g, g ∈ fs ∧ indexable (extract g) = true ∧ d.filename = g := by
  rcases foldl_staged b extract fs _ d hd with h1 | h1
  · exact absurd h1 (List.not_mem_nil d)
  · exact h1

theorem processFile_statuses_mono (b : String) (r : IndexRun) (f : String)
    (x : Extraction) (s : String) (h : s ∈ r.statuses) :
    s ∈ (processFile b r f x).statuses := by
  cases x with
  | ok t => by_cases ht : t = "" <;> simp [processFile, ht, h]
  | exn => simp [processFile, h]

theorem foldl_statuses_mono (b : String) (extract : String → Extraction) :
    ∀ (fs : List String) (r : IndexRun) (s : String), s ∈ r.statuses →
      s ∈ (fs.foldl (fun r f => processFile b r f (extract f)) r).statuses := by
  intro fs
  induction fs with
  | nil => intro r s h; exact h
  | cons f fs ih =>
    intro r s h
    exact ih _ s (processFile_statuses_mono b r f (extract f) s h)

theorem warning_reported (b : String) (extract : String → Extraction) :
    ∀ (fs : List String) (r : IndexRun) (f : String), f ∈ fs →
      extract f = Extraction.ok "" →
      ("Warning: No text extracted from " ++ f) ∈
        (fs.foldl (fun r f => processFile b r f (extract f)) r).statuses := by
  intro fs
  induction fs with
  | nil => intro r f h; exact absurd h (List.not_mem_nil f)
  | cons g gs ih =>
    intro r f hmem hext
    rcases List.mem_cons.1 hmem with rfl | hmem'
    · simp only [List.foldl_cons]
      apply foldl_statuses_mono
      rw [hext]
      simp [processFile]
    · simp only [List.foldl_cons]
      exact ih _ f hmem' hext

theorem mem_searchSnapshot (snap : List Doc) (q : QueryTree) (d : Doc)
    (h : d ∈ searchSnapshot snap q) : d ∈ snap := by
  unfold searchSnapshot at h
  have h1 := List.take_subset _ _ h
  exact (List.mem_filter.1 h1).1

/-- C7: a document whose extracted text is the empty string is reported as
skipped — it is counted in `error_files` together with a warning status,
the session does not crash (the commit still happens and the summary is
emitted), the indexed-document count only counts files with nonempty
extracted text, no document for that file is staged, and no search over
the committed snapshot can retrieve an entry for that file. -/
theorem empty_extraction_reported_skipped (books_dir : String)
    (listing : List String) (extract : String → Extraction) (prior : List Doc)
    (f : String) (hf : f ∈ listing) (hpdf : isPdfName f = true)
    (hext : extract f = Extraction.ok "") :
    ((index_pdfs books_dir listing extract prior none).run.errorFiles =
      ((listing.filter isPdfName).filter
        (fun g => !(indexable (extract g)))).length) ∧
    (f ∈ (listing.filter isPdfName).filter (fun g => !(indexable (extract g)))) ∧
    ((index_pdfs books_dir listing extract prior none).run.indexedFiles =
      ((listing.filter isPdfName).filter
        (fun g => indexable (extract g))).length) ∧
    (("Warning: No text extracted from " ++ f) ∈
      (index_pdfs books_dir listing extract prior none).run.statuses) ∧
    (∀ d ∈ (index_pdfs books_dir listing extract prior none).run.staged,
      d.filename ≠ f) ∧
    ((index_pdfs books_dir listing extract prior none).summary =
      some ((index_pdfs books_dir listing extract prior none).run.indexedFiles,
        (index_pdfs books_dir listing extract prior none).run.errorFiles)) ∧
    (∀ q : QueryTree,
      ∀ d ∈ searchSnapshot
        (index_pdfs books_dir listing extract [] none).visible q,
        d.filename ≠ f) := by
  have hpdfmem : f ∈ listing.filter isPdfName := List.mem_filter.2 ⟨hf, hpdf⟩
  have hnoidx : indexable (extract f) = false := by rw [hext]; rfl
  have hstaged : ∀ d ∈ (index_pdfs books_dir listing extract prior none).run.staged,
      d.filename ≠ f := by
    intro d hd hdf
    have hd' : d ∈ ((listing.filter isPdfName).foldl
        (fun r g => processFile books_dir r g (extract g)) ⟨0, 0, [], []⟩).staged := by
      simpa [index_pdfs] using hd
    rcases staged_filename_indexable books_dir extract _ d hd' with ⟨g, hg, hind, hname⟩
    have hgf : g = f := by rw [← hname, hdf]
    rw [hgf] at hind
    rw [hnoidx] at hind
    exact Bool.false_ne_true hind
  refine ⟨?_, ?_, ?_, ?_, hstaged, ?_, ?_⟩
  · have e := foldl_errors books_dir extract (listing.filter isPdfName) ⟨0, 0, [], []⟩
    simpa [index_pdfs] using e
  · exact List.mem_filter.2 ⟨hpdfmem, by rw [hnoidx]; rfl⟩
  · have e := foldl_indexed books_dir extract (listing.filter isPdfName) ⟨0, 0, [], []⟩
    simpa [index_pdfs] using e
  · have e := warning_reported books_dir extract (listing.filter isPdfName)
      ⟨0, 0, [], []⟩ f hpdfmem hext
    simpa [index_pdfs] using e
  · simp [index_pdfs, commitSession]
  · intro q d hd hdf
    have hd1 : d ∈ (index_pdfs books_dir listing extract [] none).visible :=
      mem_searchSnapshot _ _ _ hd
    have hd2 : d ∈ mergeDocs [] ((listing.filter isPdfName).foldl
        (fun r g => processFile books_dir r g (extract g)) ⟨0, 0, [], []⟩).staged := by
      simpa [index_pdfs, commitSession] using hd1
    rcases mem_mergeDocs _ _ _ hd2 with h1 | h1
    · exact absurd h1 (List.not_mem_nil d)
    · rcases staged_filename_indexable books_dir extract _ d h1 with ⟨g, hg, hind, hname⟩
      have hgf : g = f := by rw [← hname, hdf]
      rw [hgf] at hind
      rw [hnoidx] at hind
      exact Bool.false_ne_true hind

theorem empty_extraction_reported_skipped_witness :
    (("empty.pdf" : String) ∈ (["good.pdf", "empty.pdf"] : List String)) ∧
    (isPdfName "empty.pdf" = true) ∧
    ((fun g => if g = "empty.pdf" then Extraction.ok ""
        else Extraction.ok "The quick brown fox") "empty.pdf" = Extraction.ok "") ∧
    ((index_pdfs "D:/books" ["good.pdf", "empty.pdf"]
        (fun g => if g = "empty.pdf" then Extraction.ok ""
          else Extraction.ok "The quick brown fox") [] none).run.errorFiles =
      (((["good.pdf", "empty.pdf"] : List String).filter isPdfName).filter
        (fun g => !(indexable ((fun g => if g = "empty.pdf" then Extraction.ok ""
          else Extraction.ok "The quick brown fox") g)))).length) :=
  ⟨by decide, by decide, by decide,
    (empty_extraction_reported_skipped "D:/books" ["good.pdf", "empty.pdf"]
      (fun g => if g = "empty.pdf" then Extraction.ok ""
        else Extraction.ok "The quick brown fox") [] "empty.pdf"
      (by decide) (by decide) (by decide)).1⟩

end PdfTextSearcher
